import Mathlib

/-!
Shallow embedding of `src/lib/dates.ts` (slot/term date arithmetic for a
weekly class-schedule grid).

Modelling conventions:
* A local wall-clock instant is an `Int`: minutes since 2001-01-01T00:00
  local time (2001-01-01 is a Monday).  Calendar days are `Int` day numbers
  with the same epoch.  The runtime is modelled timezone-free (local = UTC),
  matching the spec's stated non-goal of time-zone conversion; DST is ignored.
* JavaScript `Math.floor(a / b)` on integers is `Int.fdiv`, and the
  JavaScript remainder `a % b` (sign of the dividend) is `Int.tmod`.
* `new Date(y, m, d, hour, minute)` normalises out-of-range fields by
  adding `hour` hours and `minute` minutes to the local midnight of the
  y/m/d day, which in the minutes model is `day * 1440 + hour * 60 + minute`.
* JavaScript `Array.prototype.indexOf` returns the first index or `-1`.
* A `Slot` object is identified with its slot number (an `Int`) except in
  the allocation model used for instance-identity properties, where objects
  carry an allocation id.
-/

namespace Hydrant

/-- JS `Date.getDay` of a day number: 0 = Sunday … 6 = Saturday.
Day 0 (2001-01-01) is a Monday, hence the `+ 1`. -/
def getDayD (d : Int) : Int := (d + 1).emod 7

/-- The local calendar day of an instant (minutes since epoch). -/
def dayOf (dt : Int) : Int := dt.fdiv 1440

/-- JS `Date.getDay` of an instant. -/
def getDayDT (dt : Int) : Int := getDayD (dayOf dt)

/-- JS `Date.getHours` of an instant (local hour, 0–23). -/
def getHours (dt : Int) : Int := (dt.emod 1440).fdiv 60

/-- JS `Date.getMinutes` of an instant (minute within the hour, 0–59). -/
def getMinutes (dt : Int) : Int := dt.emod 60

/-- JS `Array.prototype.indexOf`: first index of `s`, or `-1` if absent. -/
def jsIndexOf (xs : List String) (s : String) : Int :=
  if s ∈ xs then (xs.indexOf s : Int) else -1

/-- JS array subscript `xs[i]`: `undefined` (here `none`) when out of range. -/
def jsGet (xs : List String) (i : Int) : Option String :=
  if 0 ≤ i then xs.get? i.toNat else none

/-- `WEEKDAY_STRINGS` from the source. -/
def WEEKDAY_STRINGS : List String := ["Mon", "Tue", "Wed", "Thu", "Fri"]

/-- `generateTimeslotStrings` from the source: two `i:00`/`i:30` pushes per
loop iteration (`i = 8..11` AM, then noon pair, then `i = 1..9` PM), and a
final `"10:00 PM"`. -/
def generateTimeslotStrings : List String :=
  (((List.range 4).map (fun k => k + 8)).flatMap
      fun i => [toString i ++ ":00 AM", toString i ++ ":30 AM"])
    ++ ["12:00 PM", "12:30 PM"]
    ++ (((List.range 9).map (fun k => k + 1)).flatMap
      fun i => [toString i ++ ":00 PM", toString i ++ ":30 PM"])
    ++ ["10:00 PM"]

/-- `TIMESLOT_STRINGS` from the source. -/
def TIMESLOT_STRINGS : List String := generateTimeslotStrings

namespace Slot

/-- `Slot.prototype.weekday`: `Math.floor(this.slot / 30) + 1`. -/
def weekday (slot : Int) : Int := slot.fdiv 30 + 1

/-- `Slot.prototype.onDate`: keeps the date's local calendar day and sets
`hour = Math.floor((slot % 30) / 2) + 8`, `minute = (slot % 2) * 30`
(JS remainder), with `new Date(...)` field normalisation. -/
def onDate (slot : Int) (dt : Int) : Int :=
  (dayOf dt) * 1440 + ((slot.tmod 30).fdiv 2 + 8) * 60 + (slot.tmod 2) * 30

/-- `Slot.fromDayString`: `30 * indexOf(day) + indexOf(time)`. -/
def fromDayString (day time : String) : Int :=
  30 * jsIndexOf WEEKDAY_STRINGS day + jsIndexOf TIMESLOT_STRINGS time

/-- `Slot.prototype.dayString`: `WEEKDAY_STRINGS[this.weekday - 1]`. -/
def dayString (slot : Int) : Option String :=
  jsGet WEEKDAY_STRINGS (weekday slot - 1)

/-- `Slot.prototype.timeString`: `TIMESLOT_STRINGS[this.slot % 30]`. -/
def timeString (slot : Int) : Option String :=
  jsGet TIMESLOT_STRINGS (slot.tmod 30)

end Slot

/-- A slot projected onto a calendar day number (the day at local midnight). -/
def onDateD (slot d : Int) : Int := Slot.onDate slot (d * 1440)

/-- The `Term` fields the date operations read.  All configured dates are
local midnights, stored as day numbers; `mondaySchedule` is optional and
`holidays` is a list.  (`end` is a Lean keyword, hence `end_`.) -/
structure Term where
  start : Int
  h1End : Int
  h2Start : Int
  end_ : Int
  mondaySchedule : Option Int
  holidays : List Int
deriving DecidableEq

/-- One step of the `while (date.getDay() !== slot.weekday)` forward search
of `startDateFor`, with explicit fuel; `none` means the fuel ran out. -/
def searchFwd : Nat → Int → Int → Option Int
  | 0, _, _ => none
  | fuel + 1, d, w => if getDayD d = w then some d else searchFwd fuel (d + 1) w

/-- Backward search of `endDateFor` (`setDate(getDate() - 1)`), with fuel. -/
def searchBwd : Nat → Int → Int → Option Int
  | 0, _, _ => none
  | fuel + 1, d, w => if getDayD d = w then some d else searchBwd fuel (d - 1) w

/-- The unbounded forward loop of `startDateFor` terminates iff some visited
day (`d`, `d+1`, …) has the target weekday. -/
def loopTerminatesFwd (d w : Int) : Prop := ∃ n : Nat, getDayD (d + n) = w

/-- The unbounded backward loop of `endDateFor` terminates iff some visited
day (`d`, `d-1`, …) has the target weekday. -/
def loopTerminatesBwd (d w : Int) : Prop := ∃ n : Nat, getDayD (d - n) = w

/-- `Term.prototype.startDateFor`: forward day-by-day search from `start`
(or `h2Start`) for the slot's weekday, then `slot.onDate`.  Fuel 7 is
exact: the loop visits at most 7 distinct weekdays (see
`searchFwd_isSome_iff_terminates`). -/
def Term.startDateFor (t : Term) (s : Int) (secondHalf : Bool) : Option Int :=
  (searchFwd 7 (if secondHalf then t.h2Start else t.start) (Slot.weekday s)).map
    (onDateD s)

/-- `Term.prototype.endDateFor`: backward search from `end` (or `h1End`) for
the slot's weekday, then one extra day, then `slot.onDate`. -/
def Term.endDateFor (t : Term) (s : Int) (firstHalf : Bool) : Option Int :=
  (searchBwd 7 (if firstHalf then t.h1End else t.end_) (Slot.weekday s)).map
    (fun d => onDateD s (d + 1))

/-- `Term.prototype.exDatesFor`: holidays filtered to the slot's weekday,
then `new Date("2000-01-01")` (day −366) pushed unconditionally, then all
mapped through `slot.onDate`. -/
def Term.exDatesFor (t : Term) (s : Int) : List Int :=
  ((t.holidays.filter fun d => getDayD d == Slot.weekday s) ++ [(-366 : Int)]).map
    (onDateD s)

/-- `Term.prototype.rDateFor`: `slot.weekday === 1 && this.mondaySchedule ?
slot.onDate(this.mondaySchedule) : undefined`. -/
def Term.rDateFor (t : Term) (s : Int) : Option Int :=
  if Slot.weekday s = 1 then t.mondaySchedule.map (onDateD s) else none

/-! ### Object-identity model of the canonicalisation cache

`SLOT_OBJECTS` maps slot numbers to the one cached instance.  `new Slot`
allocates a fresh object; `fromSlotNumber` consults the cache and registers
the object it allocates, while `fromStartDate` calls `new Slot` directly and
neither consults nor updates the cache. -/

/-- A `Slot` object: allocation id plus the stored slot number. -/
structure SlotObj where
  id : Nat
  slot : Int
deriving DecidableEq

/-- Allocation state: next fresh id, and the `SLOT_OBJECTS` cache. -/
structure SlotHeap where
  nextId : Nat
  cache : List (Int × Nat)
deriving DecidableEq

/-- The state before any slot has been created. -/
def emptyHeap : SlotHeap := ⟨0, []⟩

/-- Look a slot number up in the cache. -/
def lookupCache (c : List (Int × Nat)) (i : Int) : Option Nat :=
  (c.find? fun p => p.1 == i).map Prod.snd

/-- `Slot.fromSlotNumber`: return the cached instance, or allocate one and
cache it. -/
def fromSlotNumberM (i : Int) (h : SlotHeap) : SlotObj × SlotHeap :=
  match lookupCache h.cache i with
  | some oid => (⟨oid, i⟩, h)
  | none => (⟨h.nextId, i⟩, ⟨h.nextId + 1, (i, h.nextId) :: h.cache⟩)

/-- `Slot.fromStartDate`: `new Slot(30 * (getDay() - 1) + 2 * (getHours() -
8) + Math.floor(getMinutes() / 30))` — a fresh allocation that bypasses the
cache. -/
def fromStartDateM (dt : Int) (h : SlotHeap) : SlotObj × SlotHeap :=
  (⟨h.nextId,
      30 * (getDayDT dt - 1) + 2 * (getHours dt - 8) + (getMinutes dt).fdiv 30⟩,
    ⟨h.nextId + 1, h.cache⟩)

example : TIMESLOT_STRINGS.length = 29 := by decide
example : Slot.fromDayString ("Tue") ("10:15 PM") = 29 := by decide
example : onDateD 0 0 = 480 := by rfl
example : getDayD (-366) = 6 := by decide

/-! ### Arithmetic bridges: JS floor-division and remainder vs `/` and `%` -/

theorem getDayD_eq (d : Int) : getDayD d = (d + 1) % 7 := rfl

theorem getDayD_nonneg (d : Int) : 0 ≤ getDayD d := by
  rw [getDayD_eq]; omega

theorem getDayD_lt (d : Int) : getDayD d < 7 := by
  rw [getDayD_eq]; omega

theorem weekday_eq (s : Int) : Slot.weekday s = s / 30 + 1 := by
  unfold Slot.weekday
  rw [Int.fdiv_eq_ediv _ (by norm_num)]

theorem dayOf_eq (dt : Int) : dayOf dt = dt / 1440 := by
  unfold dayOf
  rw [Int.fdiv_eq_ediv _ (by norm_num)]

theorem onDate_eq_of_nonneg (s dt : Int) (hs : 0 ≤ s) :
    Slot.onDate s dt = dt / 1440 * 1440 + (s % 30 / 2 + 8) * 60 + s % 2 * 30 := by
  unfold Slot.onDate
  rw [dayOf_eq, Int.tmod_eq_emod hs (by norm_num), Int.tmod_eq_emod hs (by norm_num),
    Int.fdiv_eq_ediv _ (by norm_num)]

/-! ### Properties of the weekday search loops -/

theorem searchFwd_eq_some (fuel : Nat) :
    ∀ d w res : Int, searchFwd fuel d w = some res →
      getDayD res = w ∧ d ≤ res ∧ res - d < fuel ∧
        ∀ e : Int, d ≤ e → e < res → getDayD e ≠ w := by
  induction fuel with
  | zero => intro d w res h; simp [searchFwd] at h
  | succ n ih =>
    intro d w res h
    rw [searchFwd] at h
    split at h
    · rename_i hd
      cases h
      exact ⟨hd, le_refl _, by omega, fun e h1 h2 => absurd h2 (by omega)⟩
    · rename_i hd
      obtain ⟨h1, h2, h3, h4⟩ := ih (d + 1) w res h
      refine ⟨h1, by omega, by omega, ?_⟩
      intro e he1 he2
      rcases eq_or_lt_of_le he1 with heq | hlt
      · rw [← heq]; exact hd
      · exact h4 e (by omega) he2

theorem searchBwd_eq_some (fuel : Nat) :
    ∀ d w res : Int, searchBwd fuel d w = some res →
      getDayD res = w ∧ res ≤ d ∧ d - res < fuel ∧
        ∀ e : Int, res < e → e ≤ d → getDayD e ≠ w := by
  induction fuel with
  | zero => intro d w res h; simp [searchBwd] at h
  | succ n ih =>
    intro d w res h
    rw [searchBwd] at h
    split at h
    · rename_i hd
      cases h
      exact ⟨hd, le_refl _, by omega, fun e h1 h2 => absurd h2 (by omega)⟩
    · rename_i hd
      obtain ⟨h1, h2, h3, h4⟩ := ih (d - 1) w res h
      refine ⟨h1, by omega, by omega, ?_⟩
      intro e he1 he2
      rcases eq_or_lt_of_le he2 with heq | hlt
      · rw [heq]; exact hd
      · exact h4 e he1 (by omega)

theorem searchFwd_isSome_of (fuel : Nat) :
    ∀ d w : Int, (∃ k : Nat, k < fuel ∧ getDayD (d + k) = w) →
      (searchFwd fuel d w).isSome := by
  induction fuel with
  | zero =>
    intro d w h
    obtain ⟨k, hk, _⟩ := h
    omega
  | succ n ih =>
    intro d w h
    obtain ⟨k, hk, hday⟩ := h
    rw [searchFwd]
    split
    · rfl
    · rename_i hd
      apply ih
      match k, hday with
      | 0, hday => exact absurd (by simpa using hday) hd
      | k + 1, hday =>
        refine ⟨k, by omega, ?_⟩
        rw [show d + 1 + (k : Int) = d + ((k : Int) + 1) by ring]
        push_cast at hday
        exact hday

theorem searchBwd_isSome_of (fuel : Nat) :
    ∀ d w : Int, (∃ k : Nat, k < fuel ∧ getDayD (d - k) = w) →
      (searchBwd fuel d w).isSome := by
  induction fuel with
  | zero =>
    intro d w h
    obtain ⟨k, hk, _⟩ := h
    omega
  | succ n ih =>
    intro d w h
    obtain ⟨k, hk, hday⟩ := h
    rw [searchBwd]
    split
    · rfl
    · rename_i hd
      apply ih
      match k, hday with
      | 0, hday => exact absurd (by simpa using hday) hd
      | k + 1, hday =>
        refine ⟨k, by omega, ?_⟩
        rw [show d - 1 - (k : Int) = d - ((k : Int) + 1) by ring]
        push_cast at hday
        exact hday

theorem exists_match_fwd (d w : Int) (h0 : 0 ≤ w) (h1 : w < 7) :
    ∃ k : Nat, k < 7 ∧ getDayD (d + k) = w := by
  have hk0 : 0 ≤ (w - d - 1) % 7 := Int.emod_nonneg _ (by norm_num)
  have hk1 : (w - d - 1) % 7 < 7 := Int.emod_lt_of_pos _ (by norm_num)
  refine ⟨((w - d - 1) % 7).toNat, by omega, ?_⟩
  rw [getDayD_eq, Int.toNat_of_nonneg hk0]
  omega

theorem exists_match_bwd (d w : Int) (h0 : 0 ≤ w) (h1 : w < 7) :
    ∃ k : Nat, k < 7 ∧ getDayD (d - k) = w := by
  have hk0 : 0 ≤ (d + 1 - w) % 7 := Int.emod_nonneg _ (by norm_num)
  have hk1 : (d + 1 - w) % 7 < 7 := Int.emod_lt_of_pos _ (by norm_num)
  refine ⟨((d + 1 - w) % 7).toNat, by omega, ?_⟩
  rw [getDayD_eq, Int.toNat_of_nonneg hk0]
  omega

/-- Fuel 7 is exact for the forward loop: the bounded search succeeds
precisely when the unbounded `while` loop of `startDateFor` terminates. -/
theorem searchFwd_isSome_iff_terminates (d w : Int) :
    (searchFwd 7 d w).isSome ↔ loopTerminatesFwd d w := by
  constructor
  · intro h
    obtain ⟨res, hres⟩ := Option.isSome_iff_exists.mp h
    obtain ⟨h1, h2, _, _⟩ := searchFwd_eq_some 7 d w res hres
    refine ⟨(res - d).toNat, ?_⟩
    rw [Int.toNat_of_nonneg (by omega), show d + (res - d) = res by ring]
    exact h1
  · intro h
    obtain ⟨n, hn⟩ := h
    have hw0 : 0 ≤ w := hn ▸ getDayD_nonneg _
    have hw1 : w < 7 := hn ▸ getDayD_lt _
    exact searchFwd_isSome_of 7 d w (exists_match_fwd d w hw0 hw1)

/-- Fuel 7 is exact for the backward loop of `endDateFor`. -/
theorem searchBwd_isSome_iff_terminates (d w : Int) :
    (searchBwd 7 d w).isSome ↔ loopTerminatesBwd d w := by
  constructor
  · intro h
    obtain ⟨res, hres⟩ := Option.isSome_iff_exists.mp h
    obtain ⟨h1, h2, _, _⟩ := searchBwd_eq_some 7 d w res hres
    refine ⟨(d - res).toNat, ?_⟩
    rw [Int.toNat_of_nonneg (by omega), show d - (d - res) = res by ring]
    exact h1
  · intro h
    obtain ⟨n, hn⟩ := h
    have hw0 : 0 ≤ w := hn ▸ getDayD_nonneg _
    have hw1 : w < 7 := hn ▸ getDayD_lt _
    exact searchBwd_isSome_of 7 d w (exists_match_bwd d w hw0 hw1)

/-- The local time-of-day a slot projects onto a day, and day preservation. -/
theorem onDateD_split (s d : Int) (hs : 0 ≤ s) :
    onDateD s d = d * 1440 + (s % 30 / 2 + 8) * 60 + s % 2 * 30 ∧
      onDateD s d / 1440 = d := by
  rw [onDateD, onDate_eq_of_nonneg s _ hs]
  constructor
  · omega
  · omega

/-- C2: for every term (valid dates are built into the model) and every slot
index in [0,149], `startDateFor slot secondHalf` is the first calendar day on
or after the term start (resp. second-half start) whose weekday matches the
slot's weekday, projected onto the slot's time of day. -/
theorem startDateFor_first (t : Term) (s : Int) (secondHalf : Bool)
    (h0 : 0 ≤ s) (h1 : s ≤ 149) :
    ∃ d' : Int,
      t.startDateFor s secondHalf = some (onDateD s d') ∧
      getDayD d' = Slot.weekday s ∧
      (if secondHalf then t.h2Start else t.start) ≤ d' ∧
      (∀ e : Int, (if secondHalf then t.h2Start else t.start) ≤ e →
        getDayD e = Slot.weekday s → d' ≤ e) ∧
      onDateD s d' / 1440 = d' := by
  set S := if secondHalf then t.h2Start else t.start with hS
  have hw0 : 0 ≤ Slot.weekday s := by rw [weekday_eq]; omega
  have hw1 : Slot.weekday s < 7 := by rw [weekday_eq]; omega
  have hsome := searchFwd_isSome_of 7 S _ (exists_match_fwd S _ hw0 hw1)
  obtain ⟨d', hd'⟩ := Option.isSome_iff_exists.mp hsome
  obtain ⟨hm, hge, _, hmin⟩ := searchFwd_eq_some 7 S _ d' hd'
  refine ⟨d', ?_, hm, hge, ?_, (onDateD_split s d' h0).2⟩
  · unfold Term.startDateFor
    rw [← hS, hd']
    rfl
  · intro e he hme
    by_contra hc
    exact hmin e he (by omega) hme

/-- C2 witness: a concrete term whose start (day 2, a Wednesday) projects
slot 0 (Monday 8:00 AM) to the following Monday, day 7. -/
theorem startDateFor_first_witness :
    ∃ d' : Int,
      Term.startDateFor ⟨2, 9, 12, 16, none, [7]⟩ 0 false = some (onDateD 0 d') ∧
      getDayD d' = Slot.weekday 0 ∧
      (if false then (12 : Int) else (2 : Int)) ≤ d' ∧
      (∀ e : Int, (if false then (12 : Int) else (2 : Int)) ≤ e →
        getDayD e = Slot.weekday 0 → d' ≤ e) ∧
      onDateD 0 d' / 1440 = d' :=
  startDateFor_first ⟨2, 9, 12, 16, none, [7]⟩ 0 false (by decide) (by decide)

/-- C1: for every term and every slot index in [0,149], `endDateFor slot
firstHalf` is the day one after the last calendar day on or before the term
end (resp. first-half end) whose weekday matches the slot's weekday,
projected onto the slot's time of day; it is strictly after that last
matching occurrence and within 7 days of it. -/
theorem endDateFor_after_last (t : Term) (s : Int) (firstHalf : Bool)
    (h0 : 0 ≤ s) (h1 : s ≤ 149) :
    ∃ d' : Int,
      t.endDateFor s firstHalf = some (onDateD s (d' + 1)) ∧
      getDayD d' = Slot.weekday s ∧
      d' ≤ (if firstHalf then t.h1End else t.end_) ∧
      (∀ e : Int, getDayD e = Slot.weekday s →
        e ≤ (if firstHalf then t.h1End else t.end_) → e ≤ d') ∧
      onDateD s d' < onDateD s (d' + 1) ∧
      onDateD s (d' + 1) - onDateD s d' ≤ 7 * 1440 ∧
      onDateD s (d' + 1) / 1440 = d' + 1 := by
  set E := if firstHalf then t.h1End else t.end_ with hE
  have hw0 : 0 ≤ Slot.weekday s := by rw [weekday_eq]; omega
  have hw1 : Slot.weekday s < 7 := by rw [weekday_eq]; omega
  have hsome := searchBwd_isSome_of 7 E _ (exists_match_bwd E _ hw0 hw1)
  obtain ⟨d', hd'⟩ := Option.isSome_iff_exists.mp hsome
  obtain ⟨hm, hle, _, hmax⟩ := searchBwd_eq_some 7 E _ d' hd'
  have hsplit := onDateD_split s d' h0
  have hsplit1 := onDateD_split s (d' + 1) h0
  refine ⟨d', ?_, hm, hle, ?_, by omega, by omega, hsplit1.2⟩
  · unfold Term.endDateFor
    rw [← hE, hd']
    rfl
  · intro e hme he
    by_contra hc
    exact hmax e (by omega) he hme

/-- C1 witness: same concrete term; its end (day 16, a Wednesday) sends
slot 0 (Monday) to day 15 (the preceding Monday) plus one day. -/
theorem endDateFor_after_last_witness :
    ∃ d' : Int,
      Term.endDateFor ⟨2, 9, 12, 16, none, [7]⟩ 0 false = some (onDateD 0 (d' + 1)) ∧
      getDayD d' = Slot.weekday 0 ∧
      d' ≤ (if false then (9 : Int) else (16 : Int)) ∧
      (∀ e : Int, getDayD e = Slot.weekday 0 →
        e ≤ (if false then (9 : Int) else (16 : Int)) → e ≤ d') ∧
      onDateD 0 d' < onDateD 0 (d' + 1) ∧
      onDateD 0 (d' + 1) - onDateD 0 d' ≤ 7 * 1440 ∧
      onDateD 0 (d' + 1) / 1440 = d' + 1 :=
  endDateFor_after_last ⟨2, 9, 12, 16, none, [7]⟩ 0 false (by decide) (by decide)

/-- C4: for every index in [0,149], the weekday is `index / 30 + 1` and
`onDate` keeps the given date's calendar day while setting the time of day
to hour `(index mod 30) / 2 + 8` and minute `((index mod 30) mod 2) * 30`,
regardless of the supplied date's own weekday and time. -/
theorem slot_weekday_time_formula (i : Int) (h0 : 0 ≤ i) (h1 : i ≤ 149) :
    Slot.weekday i = i / 30 + 1 ∧
    ∀ dt : Int,
      Slot.onDate i dt =
        dt / 1440 * 1440 + (i % 30 / 2 + 8) * 60 + i % 30 % 2 * 30 ∧
      Slot.onDate i dt / 1440 = dt / 1440 ∧
      Slot.onDate i dt % 1440 = (i % 30 / 2 + 8) * 60 + i % 30 % 2 * 30 := by
  refine ⟨weekday_eq i, fun dt => ?_⟩
  rw [onDate_eq_of_nonneg i dt h0]
  refine ⟨by omega, by omega, by omega⟩

/-- C4 witness: slot 31 (Tuesday 8:30 AM) projected onto an arbitrary
instant of day 1. -/
theorem slot_weekday_time_formula_witness :
    Slot.weekday 31 = 31 / 30 + 1 ∧
      Slot.onDate 31 2000 =
        2000 / 1440 * 1440 + (31 % 30 / 2 + 8) * 60 + 31 % 30 % 2 * 30 :=
  ⟨(slot_weekday_time_formula 31 (by decide) (by decide)).1,
    ((slot_weekday_time_formula 31 (by decide) (by decide)).2 2000).1⟩

/-- The unbounded forward loop terminates exactly when the target weekday is
an actual `getDay` value, i.e. lies in [0,6]. -/
theorem loopTerminatesFwd_iff (d w : Int) :
    loopTerminatesFwd d w ↔ 0 ≤ w ∧ w < 7 := by
  constructor
  · intro h
    obtain ⟨n, hn⟩ := h
    exact ⟨hn ▸ getDayD_nonneg _, hn ▸ getDayD_lt _⟩
  · intro h
    obtain ⟨k, _, hk⟩ := exists_match_fwd d w h.1 h.2
    exact ⟨k, hk⟩

/-- The unbounded backward loop terminates exactly when the target weekday
lies in [0,6]. -/
theorem loopTerminatesBwd_iff (d w : Int) :
    loopTerminatesBwd d w ↔ 0 ≤ w ∧ w < 7 := by
  constructor
  · intro h
    obtain ⟨n, hn⟩ := h
    exact ⟨hn ▸ getDayD_nonneg _, hn ▸ getDayD_lt _⟩
  · intro h
    obtain ⟨k, _, hk⟩ := exists_match_bwd d w h.1 h.2
    exact ⟨k, hk⟩

/-- C5 counterexample: the out-of-range slot index 210 is accepted by the
interface (weekday 8), but the forward weekday-search loop of
`startDateFor` never terminates on it, from any start day (here day 0). -/
theorem startDateFor_loop_diverges :
    ¬ loopTerminatesFwd 0 (Slot.weekday 210) := by
  intro h
  obtain ⟨n, hn⟩ := h
  have h1 : Slot.weekday 210 = 8 := by decide
  have h2 := getDayD_lt ((0 : Int) + n)
  omega

/-- C5 amended: the day-by-day search loops terminate precisely for slots
whose derived weekday lies in [0,6], i.e. indices in [-30,179] (which
includes every valid index 0–149); when they terminate, 7 search steps
always suffice. -/
theorem loops_terminate_iff_weekday_in_range (s d : Int) :
    (loopTerminatesFwd d (Slot.weekday s) ↔ -30 ≤ s ∧ s ≤ 179) ∧
    (loopTerminatesBwd d (Slot.weekday s) ↔ -30 ≤ s ∧ s ≤ 179) ∧
    (-30 ≤ s ∧ s ≤ 179 →
      (searchFwd 7 d (Slot.weekday s)).isSome ∧
      (searchBwd 7 d (Slot.weekday s)).isSome) := by
  have hw : Slot.weekday s = s / 30 + 1 := weekday_eq s
  have hrange : (0 ≤ Slot.weekday s ∧ Slot.weekday s < 7) ↔ (-30 ≤ s ∧ s ≤ 179) := by
    rw [hw]
    omega
  refine ⟨(loopTerminatesFwd_iff d _).trans hrange,
    (loopTerminatesBwd_iff d _).trans hrange, fun h => ?_⟩
  constructor
  · rw [searchFwd_isSome_iff_terminates]
    exact (loopTerminatesFwd_iff d _).mpr (hrange.mpr h)
  · rw [searchBwd_isSome_iff_terminates]
    exact (loopTerminatesBwd_iff d _).mpr (hrange.mpr h)

/-- C5 amended witness: slot 0 from day 0 — both loops terminate and the
bounded searches succeed. -/
theorem loops_terminate_witness :
    (searchFwd 7 0 (Slot.weekday 0)).isSome ∧
      (searchBwd 7 0 (Slot.weekday 0)).isSome :=
  (loops_terminate_iff_weekday_in_range 0 0).2.2 ⟨by decide, by decide⟩

/-- C6: `rDateFor slot` is defined iff the slot's weekday is 1 (Monday) and
the term has a `mondaySchedule`, in which case it is the `mondaySchedule`
day projected onto the slot's time of day. -/
theorem rDateFor_iff_monday (t : Term) (s : Int) :
    ((t.rDateFor s).isSome ↔ Slot.weekday s = 1 ∧ t.mondaySchedule.isSome) ∧
    (∀ m : Int, Slot.weekday s = 1 → t.mondaySchedule = some m →
      t.rDateFor s = some (onDateD s m)) := by
  unfold Term.rDateFor
  constructor
  · by_cases hw : Slot.weekday s = 1
    · simp [hw]
    · simp [hw]
  · intro m hw hm
    simp [hw, hm]

/-- C6 witness: a term whose `mondaySchedule` is day 1 (a Tuesday run on
Monday schedule) and slot 0 (a Monday slot). -/
theorem rDateFor_iff_monday_witness :
    Term.rDateFor ⟨0, 0, 0, 0, some 1, []⟩ 0 = some (onDateD 0 1) :=
  (rDateFor_iff_monday ⟨0, 0, 0, 0, some 1, []⟩ 0).2 1 (by decide) rfl

/-- C3 counterexample: with a term whose only holiday is day 0 (a Monday)
and Monday slot 0, a holiday matches the slot's weekday, yet the sentinel
(day −366, i.e. 2000-01-01, projected onto the slot) is still in the
result — the code appends it unconditionally, not only when no holiday
matches. -/
theorem exDatesFor_sentinel_even_when_matching :
    Term.exDatesFor ⟨0, 0, 0, 0, none, [0]⟩ 0 = [onDateD 0 0, onDateD 0 (-366)] ∧
    getDayD 0 = Slot.weekday 0 ∧
    onDateD 0 (-366) ∈ Term.exDatesFor ⟨0, 0, 0, 0, none, [0]⟩ 0 := by decide

/-- C3 amended: `exDatesFor slot` is the term's holidays whose weekday
matches the slot's weekday, projected onto the slot's time of day, with the
fixed sentinel (2000-01-01 projected onto the slot) appended
unconditionally; hence the result is never empty. -/
theorem exDatesFor_spec (t : Term) (s : Int) :
    t.exDatesFor s =
      (t.holidays.filter fun d => getDayD d == Slot.weekday s).map (onDateD s)
        ++ [onDateD s (-366)] ∧
    t.exDatesFor s ≠ [] := by
  unfold Term.exDatesFor
  constructor
  · rw [List.map_append]
    rfl
  · simp

/-- C7: for every weekday label and time label occurring in the fixed
tables, `fromDayString` composes an index whose `dayString` and
`timeString` give the labels back. -/
theorem fromDayString_roundtrip (day time : String)
    (hd : day ∈ WEEKDAY_STRINGS) (ht : time ∈ TIMESLOT_STRINGS) :
    Slot.dayString (Slot.fromDayString day time) = some day ∧
    Slot.timeString (Slot.fromDayString day time) = some time := by
  have hk : WEEKDAY_STRINGS.indexOf day < WEEKDAY_STRINGS.length :=
    List.indexOf_lt_length.mpr hd
  have hm : TIMESLOT_STRINGS.indexOf time < TIMESLOT_STRINGS.length :=
    List.indexOf_lt_length.mpr ht
  have hklen : WEEKDAY_STRINGS.length = 5 := by decide
  have hmlen : TIMESLOT_STRINGS.length = 29 := by decide
  have hgetk : WEEKDAY_STRINGS.get ⟨WEEKDAY_STRINGS.indexOf day, hk⟩ = day :=
    List.indexOf_get hk
  have hgetm : TIMESLOT_STRINGS.get ⟨TIMESLOT_STRINGS.indexOf time, hm⟩ = time :=
    List.indexOf_get hm
  have hfd : Slot.fromDayString day time =
      30 * (WEEKDAY_STRINGS.indexOf day : Int) +
        (TIMESLOT_STRINGS.indexOf time : Int) := by
    unfold Slot.fromDayString jsIndexOf
    rw [if_pos hd, if_pos ht]
  constructor
  · unfold Slot.dayString jsGet
    rw [hfd, weekday_eq]
    have h30 : (30 * (WEEKDAY_STRINGS.indexOf day : Int) +
        (TIMESLOT_STRINGS.indexOf time : Int)) / 30 + 1 - 1 =
        (WEEKDAY_STRINGS.indexOf day : Int) := by omega
    rw [h30, if_pos (by omega)]
    have htn : ((WEEKDAY_STRINGS.indexOf day : Int)).toNat =
        WEEKDAY_STRINGS.indexOf day := by omega
    rw [htn, List.get?_eq_get hk, hgetk]
  · unfold Slot.timeString jsGet
    rw [hfd]
    have htm : (30 * (WEEKDAY_STRINGS.indexOf day : Int) +
        (TIMESLOT_STRINGS.indexOf time : Int)).tmod 30 =
        (TIMESLOT_STRINGS.indexOf time : Int) := by
      rw [Int.tmod_eq_emod (by omega) (by norm_num)]
      omega
    rw [htm, if_pos (by omega)]
    have htn : ((TIMESLOT_STRINGS.indexOf time : Int)).toNat =
        TIMESLOT_STRINGS.indexOf time := by omega
    rw [htn, List.get?_eq_get hm, hgetm]

/-- C7 witness: the labels "Tue" and "9:00 AM" round-trip. -/
theorem fromDayString_roundtrip_witness :
    Slot.dayString (Slot.fromDayString ("Tue") ("9:00 AM")) = some ("Tue") ∧
    Slot.timeString (Slot.fromDayString ("Tue") ("9:00 AM")) = some ("9:00 AM") :=
  fromDayString_roundtrip ("Tue") ("9:00 AM") (by decide) (by decide)

/-- C8 (code bug): `fromSlotNumber 0` caches and returns the canonical
instance for index 0, but `fromStartDate` on Monday 8:00 AM (instant 480,
which computes index 0) allocates a fresh object with a different identity,
bypassing the cache — contradicting the source comment "We maintain only
one copy of each slot object"; a later `fromSlotNumber 0` still returns the
original cached instance. -/
theorem fromStartDate_not_canonical :
    (fromSlotNumberM 0 emptyHeap).1.slot = 0 ∧
    (fromStartDateM 480 (fromSlotNumberM 0 emptyHeap).2).1.slot = 0 ∧
    (fromStartDateM 480 (fromSlotNumberM 0 emptyHeap).2).1.id ≠
      (fromSlotNumberM 0 emptyHeap).1.id ∧
    (fromSlotNumberM 0 (fromStartDateM 480 (fromSlotNumberM 0 emptyHeap).2).2).1 =
      (fromSlotNumberM 0 emptyHeap).1 := by decide

/-- C9 counterexample: with a matched day label "Tue" (index 1) and an
unmatched time label, `fromDayString` yields 30·1 − 1 = 29, which is inside
the valid range [0,149] (it denotes Monday's last slot), not an
invalid/negative index. -/
theorem fromDayString_unmatched_valid_index :
    Slot.fromDayString ("Tue") ("10:15 PM") = 29 ∧
    (0 : Int) ≤ 29 ∧ (29 : Int) ≤ 149 ∧
    "10:15 PM" ∉ TIMESLOT_STRINGS := by decide

/-- C9 amended: an unmatched label yields −1 composed into
`30·dayIndex + timeIndex`.  When the day label is unmatched the result is
negative; when only the time label is unmatched the result is
`30·dayIndex − 1`, which is negative for the first weekday ("Mon") but is a
valid in-range index (the previous weekday's last slot) for any later
weekday. -/
theorem fromDayString_unmatched_spec (day time : String) :
    (day ∉ WEEKDAY_STRINGS → Slot.fromDayString day time < 0) ∧
    (day ∈ WEEKDAY_STRINGS → time ∉ TIMESLOT_STRINGS →
      Slot.fromDayString day time = 30 * jsIndexOf WEEKDAY_STRINGS day - 1 ∧
      (jsIndexOf WEEKDAY_STRINGS day = 0 → Slot.fromDayString day time < 0) ∧
      (1 ≤ jsIndexOf WEEKDAY_STRINGS day →
        0 ≤ Slot.fromDayString day time ∧ Slot.fromDayString day time ≤ 149)) := by
  have htub : jsIndexOf TIMESLOT_STRINGS time ≤ 28 := by
    unfold jsIndexOf
    split
    · rename_i h
      have h1 := List.indexOf_lt_length.mpr h
      have h2 : TIMESLOT_STRINGS.length = 29 := by decide
      omega
    · omega
  have htlb : -1 ≤ jsIndexOf TIMESLOT_STRINGS time := by
    unfold jsIndexOf
    split
    · omega
    · omega
  constructor
  · intro hnd
    have hjd : jsIndexOf WEEKDAY_STRINGS day = -1 := by
      unfold jsIndexOf
      rw [if_neg hnd]
    unfold Slot.fromDayString
    rw [hjd]
    omega
  · intro hd hnt
    have hjt : jsIndexOf TIMESLOT_STRINGS time = -1 := by
      unfold jsIndexOf
      rw [if_neg hnt]
    have hjd0 : 0 ≤ jsIndexOf WEEKDAY_STRINGS day := by
      unfold jsIndexOf
      rw [if_pos hd]
      omega
    have hjd4 : jsIndexOf WEEKDAY_STRINGS day ≤ 4 := by
      unfold jsIndexOf
      rw [if_pos hd]
      have h1 := List.indexOf_lt_length.mpr hd
      have h2 : WEEKDAY_STRINGS.length = 5 := by decide
      omega
    have heq : Slot.fromDayString day time =
        30 * jsIndexOf WEEKDAY_STRINGS day - 1 := by
      unfold Slot.fromDayString
      rw [hjt]
      ring
    exact ⟨heq, fun h0 => by omega, fun h1 => by omega⟩

/-- C9 amended witness: an unmatched day label produces a negative index. -/
theorem fromDayString_unmatched_spec_witness :
    Slot.fromDayString ("Zzz") ("8:00 AM") < 0 :=
  (fromDayString_unmatched_spec ("Zzz") ("8:00 AM")).1 (by decide)

/-- C10 counterexample: the time-label table has 29 elements, not 30
(8:00 AM through 10:00 PM in half-hour steps is 29 labels). -/
theorem timeslot_strings_not_thirty :
    TIMESLOT_STRINGS.length ≠ 30 ∧ TIMESLOT_STRINGS.length = 29 := by decide

/-- C10 amended: the weekday table has exactly 5 labels, and the time table
has exactly 29 labels running from "8:00 AM" to "10:00 PM" in 30-minute
steps. -/
theorem label_tables_content :
    WEEKDAY_STRINGS.length = 5 ∧
    TIMESLOT_STRINGS =
      ["8:00 AM", "8:30 AM", "9:00 AM", "9:30 AM", "10:00 AM", "10:30 AM",
        "11:00 AM", "11:30 AM", "12:00 PM", "12:30 PM", "1:00 PM", "1:30 PM",
        "2:00 PM", "2:30 PM", "3:00 PM", "3:30 PM", "4:00 PM", "4:30 PM",
        "5:00 PM", "5:30 PM", "6:00 PM", "6:30 PM", "7:00 PM", "7:30 PM",
        "8:00 PM", "8:30 PM", "9:00 PM", "9:30 PM", "10:00 PM"] ∧
    TIMESLOT_STRINGS.length = 29 := by decide

end Hydrant
